import Mathlib

/- Shallow embedding of playlist.py (antw/playlist.py).

   The program is a Python 2 script.  The pieces the claims are about:
   `is_enabled_filter`, `playlist_entry` / `playlist_contents`,
   `Show.episodes` / `Show.__episodes_for_path`, `ShowList.filter`,
   `ShowList.random_episodes`, `Filter.match` / `Filter.run`,
   `Group.match` / `Group.run`.

   Modelling choices, each noted at the definition it concerns:
   - Python regexes are embedded as a small pattern AST `Pat` covering the
     constructs the program compiles (literal characters, `.`, `?` on a
     literal, alternation, `.*`, `$`), with a matcher `mtch` implementing
     `re.match` semantics: the pattern must match a prefix of the string
     starting at position 0; `.` matches any character except a newline;
     `$` matches at the end of the string or just before a newline that
     ends the string (CPython semantics, identical in Python 2 and 3).
   - Python dicts (`self.shows`, `self.filters`) are modelled as lists in
     iteration order.  CPython 2 dict iteration order is fixed but
     unspecified; theorems quantify over arbitrary list contents, hence
     over every iteration order.
   - Shows are mutated through references held by Filters; in the model a
     Filter stores the referenced shows' names and mutation is performed
     on the registry's show store (names are the registry's unique keys).
   - `ShowList.filter` can recurse forever through self-referential
     Groups, so the embedding takes a fuel argument bounding the depth of
     nested `filter()` calls; `none` models a run that exceeds the
     allowed depth.
   - `random.shuffle` is modelled as an explicit `shuffle` function
     parameter; what the library guarantees is that its output is a
     permutation of its input, which theorems take as a hypothesis.
   - The filesystem is abstract: the scanner used by `Show.episodes` is a
     function parameter `fs`, and `__episodes_for_path` is also given
     concretely over a directory-tree datatype `FSNode`. -/

namespace Playlist

/-- Pattern AST for the regexes the program builds with `re.compile`. -/
inductive Pat : Type where
  | eps : Pat
  | lit : Char → Pat
  | dot : Pat
  | dollar : Pat
  | seq : Pat → Pat → Pat
  | alt : Pat → Pat → Pat
  | opt : Pat → Pat
  | stardot : Pat
deriving DecidableEq

/-- Continuation semantics of Python `.*` (greedy star of `.`): succeed on
    any split of the input whose consumed part contains no newline.
    Boolean match success is insensitive to greediness. -/
def starDotCont (k : List Char → Bool) : List Char → Bool
  | [] => k []
  | c :: rest => k (c :: rest) || (decide (c ≠ '\n') && starDotCont k rest)

/-- CPython `re` matching for `Pat`, in continuation style.  `mtch p l k`
    is true when `p` matches a prefix of `l` and `k` accepts the rest.
    `dollar` is zero-width and matches at the end of the string or just
    before a final newline. -/
def mtch : Pat → List Char → (List Char → Bool) → Bool
  | Pat.eps, l, k => k l
  | Pat.lit c, l, k =>
      match l with
      | [] => false
      | a :: rest => decide (a = c) && k rest
  | Pat.dot, l, k =>
      match l with
      | [] => false
      | a :: rest => decide (a ≠ '\n') && k rest
  | Pat.dollar, l, k => (decide (l = []) || decide (l = ['\n'])) && k l
  | Pat.seq p q, l, k => mtch p l (fun rest => mtch q rest k)
  | Pat.alt p q, l, k => mtch p l k || mtch q l k
  | Pat.opt p, l, k => mtch p l k || k l
  | Pat.stardot, l, k => starDotCont k l

/-- `re.match(p, s)` as a Boolean: `p` matches at position 0, any suffix
    may remain. -/
def reMatch (p : Pat) (s : String) : Bool :=
  mtch p s.data (fun _ => true)

/-- Compilation of a metacharacter-free string into the pattern that
    matches it literally. -/
def litsL (cs : List Char) : Pat :=
  cs.foldr (fun c p => Pat.seq (Pat.lit c) p) Pat.eps

/-- `re.compile(s)` for a string `s` containing no regex metacharacter. -/
def lits (s : String) : Pat := litsL s.data

/-- Characters special to Python regular expressions.  A match key
    containing one of these is compiled with its regex meaning, not
    literally (`re.compile` is applied to the key as-is, unescaped). -/
def isRegexMeta (c : Char) : Bool :=
  c ∈ ['.', '^', '$', '*', '+', '?', '\x7b', '\x7d', '[', ']', '\\', '|', '(', ')']

/-- `re.compile(r"^-?all$")` from `ShowList.filter` (line 105). -/
def allPseudoPat : Pat :=
  Pat.seq (Pat.opt (Pat.lit '-')) (Pat.seq (lits "all") Pat.dollar)

/-- `Filter.__init__` compiles `re.compile(r"^-?" + match)` (line 155):
    the key's compiled pattern `p` is preceded by an optional `-`. -/
def filterPat (p : Pat) : Pat :=
  Pat.seq (Pat.opt (Pat.lit '-')) p

/-- `re.compile(r".*(avi|mpg|mpeg|mp4|mkv|vob)$")` from
    `Show.__episodes_for_path` (line 75). -/
def extAltPat : Pat :=
  Pat.alt (lits "avi") (Pat.alt (lits "mpg") (Pat.alt (lits "mpeg")
    (Pat.alt (lits "mp4") (Pat.alt (lits "mkv") (lits "vob")))))

def extPat : Pat :=
  Pat.seq Pat.stardot (Pat.seq extAltPat Pat.dollar)

/-- The file-name test `ext.match(node)` of the episode scanner. -/
def extMatch (s : String) : Bool := reMatch extPat s

/-- The six extension tokens, as strings. -/
def extTokens : List String := ["avi", "mpg", "mpeg", "mp4", "mkv", "vob"]

/-- `is_enabled_filter` (lines 26-33): first character not `-`; the
    `IndexError` handler returns `False` for the empty string. -/
def is_enabled_filter (filter_string : String) : Bool :=
  match filter_string.data with
  | [] => false
  | c :: _ => c != '-'

/-- Python `str.split(sep)` for a one-character separator: splits on every
    occurrence and keeps empty pieces (`"".split(" ") == [""]`).
    Accumulator holds the current piece reversed. -/
def splitCharAux (sep : Char) (acc : List Char) : List Char → List (List Char)
  | [] => [acc.reverse]
  | c :: rest =>
      if c = sep then acc.reverse :: splitCharAux sep [] rest
      else splitCharAux sep (c :: acc) rest

/-- `filter_string.split(" ")` / `episode.split('/')`. -/
def pySplit (sep : Char) (s : String) : List String :=
  (splitCharAux sep [] s.data).map String.mk

/-- Python `sep.join(list)`. -/
def pyJoin (sep : String) : List String → String
  | [] => ""
  | [x] => x
  | x :: y :: rest => x ++ sep ++ pyJoin sep (y :: rest)

/-- `episode.split('/')[-1]` from `playlist_entry` (line 36). -/
def basename (episode : String) : String :=
  (pySplit '/' episode).getLastD ""

/-- `playlist_entry` (lines 35-36). -/
def playlist_entry (episode : String) : String :=
  "#EXTINFO:0," ++ basename episode ++ "\n" ++ episode

/-- `playlist_contents` (lines 38-44). -/
def playlist_contents (episodes : List String) : String :=
  "#EXTM3U\n" ++ pyJoin "\n" (episodes.map playlist_entry)

/-- The spec's description of the M3U output (spec section 6), stated as
    its own renderer to compare with `playlist_contents`: first line the
    literal `#EXTM3U`, then for each episode the two lines
    `#EXTINFO:0,<basename>` and the full path, consecutive episode
    entries joined by a single newline, no trailing separator. -/
def m3uEntries : List String → String
  | [] => ""
  | [e] => "#EXTINFO:0," ++ basename e ++ "\n" ++ e
  | e :: e2 :: es => "#EXTINFO:0," ++ basename e ++ "\n" ++ e ++ "\n" ++ m3uEntries (e2 :: es)

def m3uSpecFormat (episodes : List String) : String :=
  "#EXTM3U\n" ++ m3uEntries episodes

/-- A `Show` (lines 46-53): name, path, cached episode list, enabled
    flag.  `Show.__init__` sets `path = base_path + "/" + name`,
    `eplist = []`, `enabled = False`. -/
structure Show : Type where
  name : String
  path : String
  eplist : List String
  enabled : Bool
deriving DecidableEq

/-- `Show.__init__` (lines 47-53). -/
def Show.init (name : String) (base_path : String) : Show :=
  { name := name, path := base_path ++ "/" ++ name, eplist := [], enabled := false }

/-- `Show.episodes` (lines 55-61) against a scanner `fs` (the filesystem
    is static for the process, so the scan result of a path is a fixed
    value).  The cache test is Python truthiness `if not self.eplist`,
    which treats an empty list as an absent cache.  Returns the episode
    list together with the show's updated state. -/
def Show.episodesCall (fs : String → List String) (s : Show) : List String × Show :=
  if s.eplist = [] then
    let l := fs s.path
    (l, { s with eplist := l })
  else (s.eplist, s)

/-- Number of scanner invocations one `episodes()` call performs from
    state `s`: exactly one when the cache test `not self.eplist` passes
    (line 59), otherwise zero. -/
def Show.scanCount (s : Show) : Nat :=
  if s.eplist = [] then 1 else 0

/-- One registry entry: the values of `self.filters`.  `filt` carries the
    dict key, the compiled pattern (which for `Filter` is
    `re.compile(r"^-?" + key)`, see `filterPat`) and the referenced
    shows' names; `grp` carries the dict key, the compiled pattern
    (`re.compile(key)`, no `-?` marker, line 167) and the stored
    filter-string. -/
inductive FEntry : Type where
  | filt : String → Pat → List String → FEntry
  | grp : String → Pat → String → FEntry
deriving DecidableEq

/-- `Filter.match` / `Group.match`: `self.regex.match(against)`. -/
def FEntry.matchTok : FEntry → String → Bool
  | FEntry.filt _ p _, t => reMatch p t
  | FEntry.grp _ p _, t => reMatch p t

/-- The registry `ShowList` (lines 85-88): dict values in iteration
    order. -/
structure ShowList : Type where
  shows : List Show
  filters : List FEntry
deriving DecidableEq

/-- `Filter.run` (lines 161-163): sets `show.enabled = enable` on every
    referenced show; shows are identified in the registry store by name. -/
def setShows (names : List String) (enable : Bool) (shows : List Show) : List Show :=
  shows.map (fun s => if s.name ∈ names then { s with enabled := enable } else s)

/-- The `all` pseudo-filter body (lines 109-111): sets every show's flag. -/
def setAllShows (enable : Bool) (shows : List Show) : List Show :=
  shows.map (fun s => { s with enabled := enable })

/-- The scan `for filter in self.filters.values(): if filter.match(token):
    ... break` (lines 113-116): the first matching entry. -/
def firstMatch : List FEntry → String → Option FEntry
  | [], _ => none
  | e :: rest, t => if FEntry.matchTok e t then some e else firstMatch rest t

/-- `filter.run(enable_or_disable)` dispatched on the entry's class:
    `Filter.run` sets the referenced shows' flags; `Group.run` (lines
    174-175) ignores the polarity and re-invokes `self.showlist.filter`
    on the stored filter-string, modelled by the `recur` parameter. -/
def runEntryF (recur : ShowList → String → Option ShowList) (sl : ShowList)
    (e : FEntry) (enable : Bool) : Option ShowList :=
  match e with
  | FEntry.filt _ _ names => some { sl with shows := setShows names enable sl.shows }
  | FEntry.grp _ _ fs => recur sl fs

/-- The per-token body of `ShowList.filter` (lines 107-116): compute the
    polarity, handle the `^-?all$` pseudo-filter without consulting any
    entry, otherwise apply the first matching entry (or silently do
    nothing). -/
def stepTokenF (recur : ShowList → String → Option ShowList) (sl : ShowList)
    (t : String) : Option ShowList :=
  let enable := is_enabled_filter t
  if reMatch allPseudoPat t then
    some { sl with shows := setAllShows enable sl.shows }
  else
    match firstMatch sl.filters t with
    | none => some sl
    | some e => runEntryF recur sl e enable

/-- The token loop of `ShowList.filter`: tokens strictly left to right,
    each starting from the state the previous token produced. -/
def runTokensF (recur : ShowList → String → Option ShowList) :
    ShowList → List String → Option ShowList
  | sl, [] => some sl
  | sl, t :: ts =>
      match stepTokenF recur sl t with
      | none => none
      | some sl2 => runTokensF recur sl2 ts

/-- `ShowList.filter` (lines 103-117) with fuel bounding the depth of
    nested `filter()` calls (Group expansion recurses with one less unit
    of fuel; `none` models exceeding the allowed depth, which in the real
    program is unbounded recursion). -/
def ShowList.filter (fuel : Nat) (sl : ShowList) (filter_string : String) :
    Option ShowList :=
  match fuel with
  | 0 => none
  | f + 1 => runTokensF (fun sl2 s2 => ShowList.filter f sl2 s2) sl (pySplit ' ' filter_string)

/-- The episode pool of `ShowList.random_episodes` (lines 123-127):
    `show.episodes()` of every enabled show, extended in show order. -/
def allMatchingEpisodes (fs : String → List String) (sl : ShowList) : List String :=
  sl.shows.foldl (fun acc s => if s.enabled then acc ++ (Show.episodesCall fs s).1 else acc) []

/-- `ShowList.random_episodes` (lines 119-130): shuffle the pool and
    slice `[0:count]`.  `shuffle` stands for `random.shuffle`; for a
    non-negative count the slice is `List.take`. -/
def random_episodes (fs : String → List String) (shuffle : List String → List String)
    (sl : ShowList) (count : Nat) : List String :=
  (shuffle (allMatchingEpisodes fs sl)).take count

/-- A directory tree node, for the recursive scanner. -/
inductive FSNode : Type where
  | file : String → FSNode
  | dir : String → List FSNode → FSNode

/-- `Show.__episodes_for_path` (lines 71-83) over a directory listing:
    full paths are built with `os.path.join(path, node)` (plain
    `path ++ "/" ++ node` for the relative names considered here); a
    regular file is kept when `ext.match` accepts its full path; a
    directory is scanned recursively and each nested result is tested
    again (as the source does). -/
def episodes_for_path (path : String) (nodes : List FSNode) : List String :=
  match nodes with
  | [] => []
  | FSNode.file n :: rest =>
      let full := path ++ "/" ++ n
      (if extMatch full then [full] else []) ++ episodes_for_path path rest
  | FSNode.dir n children :: rest =>
      let full := path ++ "/" ++ n
      (episodes_for_path full children).filter extMatch ++ episodes_for_path path rest

/-- Decidable check that `tok` is a suffix of `l`. -/
def endsWithL (tok l : List Char) : Bool :=
  decide (tok.length ≤ l.length) && decide (l.drop (l.length - tok.length) = tok)

/-- Projection of a show onto the state `ShowList.filter` is not allowed
    to change: name, path, cached episode list. -/
def showKey (s : Show) : String × String × List String :=
  (s.name, s.path, s.eplist)

/- Concrete registry states used by witnesses and counterexamples. -/

/-- Two shows, two Filters and a Group with key `"fav"` (compiled
    `re.compile("fav")`, no `-?` marker) whose stored filter-string is
    `"-all showA showB"`. -/
def slC1 : ShowList :=
  ⟨[⟨"showA", "p/showA", [], false⟩, ⟨"showB", "p/showB", [], false⟩],
   [FEntry.filt "showA" (filterPat (lits "showA")) ["showA"],
    FEntry.filt "showB" (filterPat (lits "showB")) ["showB"],
    FEntry.grp "fav" (lits "fav") "-all showA showB"]⟩

/-- `slC1` with both shows enabled. -/
def slC1done : ShowList :=
  { slC1 with shows := [⟨"showA", "p/showA", [], true⟩, ⟨"showB", "p/showB", [], true⟩] }

/-- One show and a Group with key `"fav"` whose stored string is `"-all"`. -/
def slC1w : ShowList :=
  ⟨[⟨"A", "p/A", [], true⟩], [FEntry.grp "fav" (lits "fav") "-all"]⟩

/-- One disabled show, no Filters or Groups registered at all. -/
def slC2 : ShowList := ⟨[⟨"s", "p/s", [], false⟩], []⟩

/-- `slC2` with the show enabled. -/
def slC2done : ShowList := ⟨[⟨"s", "p/s", [], true⟩], []⟩

/-- One enabled show and one Filter with key `"k"`. -/
def slC3 : ShowList :=
  ⟨[⟨"s", "p/s", [], true⟩], [FEntry.filt "k" (filterPat (lits "k")) ["s"]]⟩

/-- One enabled show, no Filters or Groups registered. -/
def slC3c : ShowList := ⟨[⟨"s", "p/s", [], true⟩], []⟩

/-- `slC3c` with the show disabled. -/
def slC3cdone : ShowList := ⟨[⟨"s", "p/s", [], false⟩], []⟩

/-- One enabled show with two cached episodes. -/
def slC5w : ShowList := ⟨[⟨"A", "p/A", ["e1", "e2"], true⟩], []⟩

/-- Two enabled shows whose cached episode lists hold the same path. -/
def slC5c : ShowList :=
  ⟨[⟨"A", "p/A", ["e"], true⟩, ⟨"B", "p/B", ["e"], true⟩], []⟩

/-- One disabled show and a Group with key `"g"` whose stored string is
    `"all"`. -/
def slC10 : ShowList :=
  ⟨[⟨"s", "p/s", ["e"], false⟩], [FEntry.grp "g" (lits "g") "all"]⟩

/-- `slC10` after the group fires: the show enabled, all else equal. -/
def slC10done : ShowList :=
  ⟨[⟨"s", "p/s", ["e"], true⟩], [FEntry.grp "g" (lits "g") "all"]⟩

/- ================== theorems ================== -/

/-- Convert a data-level equation to a string equation. -/
theorem str_eq_of_data {t : String} {l : List Char} (h : t.data = l) : t = String.mk l := by
  cases t
  exact congrArg String.mk h

/-- Matching a literal sequence: the pattern `litsL cs` consumes exactly
    `cs` and hands the rest to the continuation. -/
theorem mtch_litsL (cs : List Char) : ∀ (l : List Char) (k : List Char → Bool),
    mtch (litsL cs) l k = true ↔ ∃ rest, l = cs ++ rest ∧ k rest = true := by
  induction cs with
  | nil =>
      intro l k
      simp [litsL, mtch]
  | cons c cs ih =>
      intro l k
      cases l with
      | nil =>
          constructor
          · intro h
            exact absurd h (by simp [litsL, mtch])
          · rintro ⟨rest, hl, -⟩
            simp at hl
      | cons a l =>
          have e : mtch (litsL (c :: cs)) (a :: l) k =
              (decide (a = c) && mtch (litsL cs) l k) := rfl
          rw [e]
          constructor
          · intro h
            rw [Bool.and_eq_true] at h
            obtain ⟨h1, h2⟩ := h
            have hac : a = c := of_decide_eq_true h1
            rcases (ih l k).mp h2 with ⟨rest, hrest, hk⟩
            exact ⟨rest, by simp [hac, hrest], hk⟩
          · rintro ⟨rest, hl, hk⟩
            rw [List.cons_append] at hl
            injection hl with hac hlr
            subst hac
            rw [Bool.and_eq_true]
            exact ⟨decide_eq_true rfl, (ih l k).mpr ⟨rest, hlr, hk⟩⟩

/-- Matching a literal sequence followed by `$` with the trivial
    continuation: the input is the literal, optionally followed by one
    final newline. -/
theorem mtch_lits_dollar (cs l : List Char) :
    mtch (Pat.seq (litsL cs) Pat.dollar) l (fun _ => true) = true ↔
      l = cs ∨ l = cs ++ ['\n'] := by
  have e : mtch (Pat.seq (litsL cs) Pat.dollar) l (fun _ => true) =
      mtch (litsL cs) l (fun rest => mtch Pat.dollar rest (fun _ => true)) := rfl
  rw [e, mtch_litsL]
  constructor
  · rintro ⟨rest, hl, hk⟩
    have : rest = [] ∨ rest = ['\n'] := by
      rcases rest with - | ⟨c, rest⟩
      · exact Or.inl rfl
      · right
        simp only [mtch, Bool.and_eq_true, Bool.or_eq_true, decide_eq_true_eq] at hk
        rcases hk.1 with h | h
        · exact absurd h (by simp)
        · exact h
    rcases this with rfl | rfl
    · exact Or.inl (by simpa using hl)
    · exact Or.inr hl
  · rintro (rfl | rfl)
    · exact ⟨[], by simp, by simp [mtch]⟩
    · exact ⟨['\n'], rfl, by simp [mtch]⟩

/-- Matching `-?` followed by `p`: either `p` matches directly, or the
    input starts with `-` and `p` matches the remainder. -/
theorem mtch_optDash (p : Pat) (l : List Char) (k : List Char → Bool) :
    mtch (Pat.seq (Pat.opt (Pat.lit '-')) p) l k = true ↔
      (mtch p l k = true ∨ ∃ l', l = '-' :: l' ∧ mtch p l' k = true) := by
  cases l with
  | nil =>
      have e : mtch (Pat.seq (Pat.opt (Pat.lit '-')) p) [] k =
          (false || mtch p [] k) := rfl
      rw [e]
      simp
  | cons a l =>
      have e : mtch (Pat.seq (Pat.opt (Pat.lit '-')) p) (a :: l) k =
          ((decide (a = '-') && mtch p l k) || mtch p (a :: l) k) := rfl
      rw [e]
      by_cases h : a = '-'
      · subst h
        simp [or_comm]
      · simp [h]

/-- The `^-?all$` pseudo-filter regex accepts exactly `all` and `-all`,
    each optionally followed by one final newline (CPython `$`). -/
theorem reMatch_allPseudo_iff (t : String) :
    reMatch allPseudoPat t = true ↔
      (t = "all" ∨ t = "-all" ∨ t = "all\n" ∨ t = "-all\n") := by
  have e : reMatch allPseudoPat t =
      mtch (Pat.seq (Pat.opt (Pat.lit '-'))
        (Pat.seq (litsL ['a', 'l', 'l']) Pat.dollar)) t.data (fun _ => true) := rfl
  rw [e, mtch_optDash]
  simp only [mtch_lits_dollar]
  constructor
  · rintro ((h | h) | ⟨l', hd, (h | h)⟩)
    · exact Or.inl (str_eq_of_data h)
    · exact Or.inr (Or.inr (Or.inl (str_eq_of_data h)))
    · subst h
      exact Or.inr (Or.inl (str_eq_of_data hd))
    · subst h
      exact Or.inr (Or.inr (Or.inr (str_eq_of_data hd)))
  · rintro (rfl | rfl | rfl | rfl)
    · exact Or.inl (Or.inl rfl)
    · exact Or.inr ⟨['a', 'l', 'l'], rfl, Or.inl rfl⟩
    · exact Or.inl (Or.inr rfl)
    · exact Or.inr ⟨['a', 'l', 'l', '\n'], rfl, Or.inr rfl⟩

/-- `Filter.match` for a metacharacter-free key `k` (compiled pattern
    `^-?` followed by `k` literally): the token starts with `k`, or with
    `-` immediately followed by `k`. -/
theorem reMatch_filterPat_lits (k token : String) :
    reMatch (filterPat (lits k)) token = true ↔
      (∃ r, token.data = k.data ++ r) ∨ (∃ r, token.data = '-' :: (k.data ++ r)) := by
  have e : reMatch (filterPat (lits k)) token =
      mtch (Pat.seq (Pat.opt (Pat.lit '-')) (litsL k.data)) token.data (fun _ => true) := rfl
  rw [e, mtch_optDash]
  simp only [mtch_litsL]
  constructor
  · rintro (⟨rest, hr, -⟩ | ⟨l', hd, rest, hr, -⟩)
    · exact Or.inl ⟨rest, hr⟩
    · exact Or.inr ⟨rest, by rw [hd, hr]⟩
  · rintro (⟨rest, hr⟩ | ⟨rest, hr⟩)
    · exact Or.inl ⟨rest, hr, trivial⟩
    · exact Or.inr ⟨k.data ++ rest, hr, rest, rfl, trivial⟩

/-- `.*` with a continuation: some newline-free leading part is consumed
    and the continuation accepts the remainder. -/
theorem starDotCont_iff (k : List Char → Bool) : ∀ l : List Char,
    starDotCont k l = true ↔
      ∃ pre rest, l = pre ++ rest ∧ (∀ c ∈ pre, c ≠ '\n') ∧ k rest = true := by
  intro l
  induction l with
  | nil =>
      constructor
      · intro h
        exact ⟨[], [], rfl, by simp, h⟩
      · rintro ⟨pre, rest, hl, -, hk⟩
        rcases List.append_eq_nil.mp hl.symm with ⟨rfl, rfl⟩
        exact hk
  | cons c l ih =>
      have e : starDotCont k (c :: l) =
          (k (c :: l) || (decide (c ≠ '\n') && starDotCont k l)) := rfl
      rw [e]
      constructor
      · intro h
        rw [Bool.or_eq_true] at h
        rcases h with h | h
        · exact ⟨[], c :: l, rfl, by simp, h⟩
        · rw [Bool.and_eq_true] at h
          obtain ⟨h1, h2⟩ := h
          rcases ih.mp h2 with ⟨pre, rest, hl, hpre, hk⟩
          refine ⟨c :: pre, rest, by simp [hl], ?_, hk⟩
          intro x hx
          rcases List.mem_cons.mp hx with rfl | hx
          · exact of_decide_eq_true h1
          · exact hpre x hx
      · rintro ⟨pre, rest, hl, hpre, hk⟩
        cases pre with
        | nil =>
            simp only [List.nil_append] at hl
            subst hl
            rw [Bool.or_eq_true]
            exact Or.inl hk
        | cons p pre =>
            rw [List.cons_append] at hl
            injection hl with h1 h2
            subst h1
            rw [Bool.or_eq_true]
            refine Or.inr ?_
            rw [Bool.and_eq_true]
            refine ⟨decide_eq_true (hpre c (by simp)), ?_⟩
            exact ih.mpr ⟨pre, rest, h2, fun x hx => hpre x (by simp [hx]), hk⟩

/-- The extension alternation: one of the six tokens matches. -/
theorem mtch_extAlt (l : List Char) (k : List Char → Bool) :
    mtch extAltPat l k = true ↔
      ∃ t ∈ extTokens, mtch (litsL t.data) l k = true := by
  have e : mtch extAltPat l k =
      (mtch (litsL "avi".data) l k || (mtch (litsL "mpg".data) l k ||
        (mtch (litsL "mpeg".data) l k || (mtch (litsL "mp4".data) l k ||
          (mtch (litsL "mkv".data) l k || mtch (litsL "vob".data) l k))))) := rfl
  rw [e]
  simp only [Bool.or_eq_true]
  constructor
  · rintro (h | h | h | h | h | h)
    · exact ⟨"avi", by simp [extTokens], h⟩
    · exact ⟨"mpg", by simp [extTokens], h⟩
    · exact ⟨"mpeg", by simp [extTokens], h⟩
    · exact ⟨"mp4", by simp [extTokens], h⟩
    · exact ⟨"mkv", by simp [extTokens], h⟩
    · exact ⟨"vob", by simp [extTokens], h⟩
  · rintro ⟨t, ht, h⟩
    simp only [extTokens, List.mem_cons, List.not_mem_nil, or_false] at ht
    rcases ht with rfl | rfl | rfl | rfl | rfl | rfl <;> tauto

/-- The scanner's file-name regex `.*(avi|mpg|mpeg|mp4|mkv|vob)$` at the
    character level: a newline-free part, one of the six tokens, then the
    end of the string or one final newline. -/
theorem extMatch_chars (l : List Char) :
    mtch extPat l (fun _ => true) = true ↔
      ∃ pre, ∃ t ∈ extTokens, ∃ rest, l = pre ++ t.data ++ rest ∧
        (∀ c ∈ pre, c ≠ '\n') ∧ (rest = [] ∨ rest = ['\n']) := by
  have e : mtch extPat l (fun _ => true) =
      starDotCont (fun r => mtch extAltPat r
        (fun r2 => mtch Pat.dollar r2 (fun _ => true))) l := rfl
  rw [e, starDotCont_iff]
  constructor
  · rintro ⟨pre, rest, hl, hpre, hk⟩
    rcases (mtch_extAlt rest _).mp hk with ⟨t, ht, hlit⟩
    rcases (mtch_litsL t.data rest _).mp hlit with ⟨rest2, hrest, hd⟩
    have hr2 : rest2 = [] ∨ rest2 = ['\n'] := by
      rcases rest2 with - | ⟨c, r2⟩
      · exact Or.inl rfl
      · right
        simp only [mtch, Bool.and_eq_true, Bool.or_eq_true, decide_eq_true_eq] at hd
        rcases hd.1 with h | h
        · exact absurd h (by simp)
        · exact h
    exact ⟨pre, t, ht, rest2, by rw [hl, hrest, List.append_assoc], hpre, hr2⟩
  · rintro ⟨pre, t, ht, rest, hl, hpre, hrest⟩
    refine ⟨pre, t.data ++ rest, by rw [hl, List.append_assoc], hpre, ?_⟩
    refine (mtch_extAlt _ _).mpr ⟨t, ht, ?_⟩
    refine (mtch_litsL _ _ _).mpr ⟨rest, rfl, ?_⟩
    rcases hrest with rfl | rfl
    · simp [mtch]
    · simp [mtch]

/-- `endsWithL` decides the existence of a decomposition `l = pre ++ tok`. -/
theorem endsWithL_iff (tok l : List Char) :
    endsWithL tok l = true ↔ ∃ pre, l = pre ++ tok := by
  rw [endsWithL, Bool.and_eq_true, decide_eq_true_eq, decide_eq_true_eq]
  constructor
  · rintro ⟨hle, hdrop⟩
    refine ⟨l.take (l.length - tok.length), ?_⟩
    conv_lhs => rw [← List.take_append_drop (l.length - tok.length) l]
    rw [hdrop]
  · rintro ⟨pre, rfl⟩
    have hlen : (pre ++ tok).length - tok.length = pre.length := by
      simp
    refine ⟨by simp, ?_⟩
    rw [hlen, List.drop_left]

/-- Splitting a space-free character list yields the single piece. -/
theorem splitCharAux_nospace : ∀ (l : List Char) (acc : List Char),
    (∀ c ∈ l, c ≠ ' ') → splitCharAux ' ' acc l = [acc.reverse ++ l] := by
  intro l
  induction l with
  | nil =>
      intro acc _
      simp [splitCharAux]
  | cons c l ih =>
      intro acc h
      have hc : c ≠ ' ' := h c (by simp)
      rw [splitCharAux, if_neg hc, ih (c :: acc) (fun x hx => h x (by simp [hx]))]
      simp

/-- A token without spaces passes through `split(" ")` unchanged. -/
theorem pySplit_nospace (t : String) (h : ∀ c ∈ t.data, c ≠ ' ') :
    pySplit ' ' t = [t] := by
  rw [pySplit, splitCharAux_nospace t.data [] h]
  rfl

/-- Running the token loop on a single token is one `stepTokenF`. -/
theorem runTokensF_single (recur : ShowList → String → Option ShowList)
    (sl : ShowList) (t : String) :
    runTokensF recur sl [t] = stepTokenF recur sl t := by
  cases h : stepTokenF recur sl t with
  | none => simp [runTokensF, h]
  | some sl2 => simp [runTokensF, h]

/-- When no registered entry matches, the scan returns nothing. -/
theorem firstMatch_eq_none (t : String) : ∀ es : List FEntry,
    (∀ e ∈ es, FEntry.matchTok e t = false) → firstMatch es t = none := by
  intro es
  induction es with
  | nil => intro _; rfl
  | cons e es ih =>
      intro h
      rw [firstMatch, if_neg (by simp [h e (by simp)])]
      exact ih (fun x hx => h x (by simp [hx]))

/-- The scan returns the first matching entry, never looking past it. -/
theorem firstMatch_first (t : String) (pre : List FEntry) (e : FEntry) (post : List FEntry)
    (hpre : ∀ x ∈ pre, FEntry.matchTok x t = false) (he : FEntry.matchTok e t = true) :
    firstMatch (pre ++ e :: post) t = some e := by
  induction pre with
  | nil => simp [firstMatch, he]
  | cons a pre ih =>
      rw [List.cons_append, firstMatch, if_neg (by simp [hpre a (by simp)])]
      exact ih (fun x hx => hpre x (by simp [hx]))

/-- Setting every show's flag changes no name, path or episode list. -/
theorem showKey_setAll (e : Bool) (shows : List Show) :
    (setAllShows e shows).map showKey = shows.map showKey := by
  rw [setAllShows, List.map_map]
  rfl

/-- `Filter.run` changes no name, path or episode list. -/
theorem showKey_setShows (names : List String) (e : Bool) (shows : List Show) :
    (setShows names e shows).map showKey = shows.map showKey := by
  rw [setShows, List.map_map]
  apply List.map_congr_left
  intro s _
  by_cases h : s.name ∈ names <;> simp [showKey, h]

/-- One token step preserves the registry frame (filters list; every
    show's name, path and episode list), assuming the group-recursion
    does. -/
theorem stepTokenF_frame (recur : ShowList → String → Option ShowList)
    (hrec : ∀ sl fs sl', recur sl fs = some sl' →
      sl'.filters = sl.filters ∧ sl'.shows.map showKey = sl.shows.map showKey)
    (sl : ShowList) (t : String) (sl' : ShowList)
    (h : stepTokenF recur sl t = some sl') :
    sl'.filters = sl.filters ∧ sl'.shows.map showKey = sl.shows.map showKey := by
  simp only [stepTokenF] at h
  split at h
  · injection h with h
    subst h
    exact ⟨rfl, showKey_setAll _ _⟩
  · split at h
    · injection h with h
      subst h
      exact ⟨rfl, rfl⟩
    · rename_i e _
      cases e with
      | filt k p names =>
          simp only [runEntryF] at h
          injection h with h
          subst h
          exact ⟨rfl, showKey_setShows _ _ _⟩
      | grp k p fs =>
          simp only [runEntryF] at h
          exact hrec sl fs sl' h

/-- The token loop preserves the registry frame. -/
theorem runTokensF_frame (recur : ShowList → String → Option ShowList)
    (hrec : ∀ sl fs sl', recur sl fs = some sl' →
      sl'.filters = sl.filters ∧ sl'.shows.map showKey = sl.shows.map showKey) :
    ∀ (tokens : List String) (sl sl' : ShowList),
      runTokensF recur sl tokens = some sl' →
      sl'.filters = sl.filters ∧ sl'.shows.map showKey = sl.shows.map showKey := by
  intro tokens
  induction tokens with
  | nil =>
      intro sl sl' h
      rw [runTokensF] at h
      injection h with h
      subst h
      exact ⟨rfl, rfl⟩
  | cons t ts ih =>
      intro sl sl' h
      rw [runTokensF] at h
      cases hs : stepTokenF recur sl t with
      | none =>
          rw [hs] at h
          exact absurd h (by simp)
      | some sl2 =>
          rw [hs] at h
          obtain ⟨f1, m1⟩ := stepTokenF_frame recur hrec sl t sl2 hs
          obtain ⟨f2, m2⟩ := ih sl2 sl' h
          exact ⟨f2.trans f1, m2.trans m1⟩

/-- `ShowList.filter` preserves the registry frame at every fuel. -/
theorem filter_frame : ∀ (fuel : Nat) (sl : ShowList) (s : String) (sl' : ShowList),
    ShowList.filter fuel sl s = some sl' →
    sl'.filters = sl.filters ∧ sl'.shows.map showKey = sl.shows.map showKey := by
  intro fuel
  induction fuel with
  | zero =>
      intro sl s sl' h
      exact absurd h (by simp [ShowList.filter])
  | succ f ih =>
      intro sl s sl' h
      rw [ShowList.filter] at h
      exact runTokensF_frame _ (fun sl2 s2 sl2' hh => ih sl2 s2 sl2' hh) _ sl sl' h

/-- `filter` on a spaceless token that the `^-?all$` pseudo-filter
    accepts: sets every show's flag to the token's polarity, whatever
    entries are registered. -/
theorem filter_single_all (fuel : Nat) (sl : ShowList) (t : String)
    (h1 : reMatch allPseudoPat t = true) (hsp : ∀ c ∈ t.data, c ≠ ' ') :
    ShowList.filter (fuel + 1) sl t =
      some { sl with shows := setAllShows (is_enabled_filter t) sl.shows } := by
  rw [ShowList.filter, pySplit_nospace t hsp, runTokensF_single]
  simp only [stepTokenF]
  rw [if_pos h1]

/-- A non-`all` token matched by no entry leaves the state untouched. -/
theorem stepTokenF_no_match (recur : ShowList → String → Option ShowList)
    (sl : ShowList) (t : String)
    (hall : reMatch allPseudoPat t = false)
    (hm : ∀ e ∈ sl.filters, FEntry.matchTok e t = false) :
    stepTokenF recur sl t = some sl := by
  simp only [stepTokenF]
  rw [if_neg (by simp [hall]), firstMatch_eq_none t sl.filters hm]

/-- A non-`all` token runs exactly the first matching entry. -/
theorem stepTokenF_first_entry (recur : ShowList → String → Option ShowList)
    (sl : ShowList) (t : String) (pre : List FEntry) (e : FEntry) (post : List FEntry)
    (hall : reMatch allPseudoPat t = false)
    (hfl : sl.filters = pre ++ e :: post)
    (hpre : ∀ x ∈ pre, FEntry.matchTok x t = false)
    (he : FEntry.matchTok e t = true) :
    stepTokenF recur sl t = runEntryF recur sl e (is_enabled_filter t) := by
  simp only [stepTokenF]
  rw [if_neg (by simp [hall]), hfl, firstMatch_first t pre e post hpre he]

/-- `filter` on a one-token string reduces to the step on that token. -/
theorem filter_one_token (fuel : Nat) (sl : ShowList) (t : String)
    (hsp : ∀ c ∈ t.data, c ≠ ' ') :
    ShowList.filter (fuel + 1) sl t =
      stepTokenF (fun sl2 s2 => ShowList.filter fuel sl2 s2) sl t := by
  rw [ShowList.filter, pySplit_nospace t hsp, runTokensF_single]

/-- The code's M3U rendering agrees with the spec's format description. -/
theorem pyJoin_entries : ∀ es : List String,
    pyJoin "\n" (es.map playlist_entry) = m3uEntries es := by
  intro es
  induction es with
  | nil => rfl
  | cons e tail ih =>
      cases tail with
      | nil => rfl
      | cons e2 rest =>
          rw [List.map_cons, List.map_cons, pyJoin, ← List.map_cons playlist_entry e2 rest, ih]
          rfl

/- ================== claim theorems ================== -/

/-- Claim C1, amended (corrected): a Group's pattern is compiled without
    the `-?` polarity marker, so it only fires on tokens its key pattern
    itself matches at position 0.  For such a triggering token (spaceless
    and not an `all` token), `filter()` on the one-token string replays
    the Group's stored filter-string through the full filtering
    algorithm, at one less unit of recursion depth, with the triggering
    token's polarity ignored. -/
theorem group_replay (fuel : Nat) (sl : ShowList) (pre post : List FEntry)
    (k : String) (p : Pat) (fs token : String)
    (hfl : sl.filters = pre ++ FEntry.grp k p fs :: post)
    (hpre : ∀ x ∈ pre, FEntry.matchTok x token = false)
    (hm : reMatch p token = true)
    (hall : reMatch allPseudoPat token = false)
    (hsp : ∀ c ∈ token.data, c ≠ ' ') :
    ShowList.filter (fuel + 1) sl token = ShowList.filter fuel sl fs := by
  rw [filter_one_token fuel sl token hsp,
    stepTokenF_first_entry _ sl token pre (FEntry.grp k p fs) post hall hfl hpre hm]
  rfl

/-- Witness for C1: a Group with key `"fav"` and stored string `"-all"`,
    triggered by the token `"fav"`. -/
theorem group_replay_witness :
    ShowList.filter 2 slC1w "fav" = ShowList.filter 1 slC1w "-all" :=
  group_replay 1 slC1w [] [] "fav" (lits "fav") "-all" "fav" rfl
    (by simp) (by decide) (by decide) (by decide)

/-- Counterexample to C1 as stated: the token `"-fav"` (negative
    polarity) does not trigger the Group with key `"fav"` — the run
    leaves the registry unchanged — while supplying the stored string
    `"-all showA showB"` directly enables both shows. -/
theorem group_replay_counterexample :
    ShowList.filter 3 slC1 "-fav" = some slC1 ∧
      ShowList.filter 3 slC1 "-all showA showB" = some slC1done ∧
      slC1done.shows.map Show.enabled ≠ slC1.shows.map Show.enabled := by
  refine ⟨by decide, by decide, by decide⟩

/-- Claim C2, amended (corrected): the pseudo-filter special case fires
    exactly on tokens matched by `^-?all$` — `all` and `-all`, each
    optionally followed by one final newline (CPython `$` semantics), not
    on mere prefixes; for `all` every show's flag becomes true and for
    `-all` false, regardless of the registered entries (no Filter or
    Group is consulted: the registry's `filters` are not read). -/
theorem all_token_semantics :
    (∀ t : String, reMatch allPseudoPat t = true ↔
        (t = "all" ∨ t = "-all" ∨ t = "all\n" ∨ t = "-all\n")) ∧
    (∀ (fuel : Nat) (sl : ShowList),
        ShowList.filter (fuel + 1) sl "all" =
          some { sl with shows := setAllShows true sl.shows } ∧
        ShowList.filter (fuel + 1) sl "-all" =
          some { sl with shows := setAllShows false sl.shows }) ∧
    (∀ shows : List Show,
        (setAllShows true shows).map Show.enabled = shows.map (fun _ => true) ∧
        (setAllShows false shows).map Show.enabled = shows.map (fun _ => false)) := by
  refine ⟨reMatch_allPseudo_iff, fun fuel sl => ⟨?_, ?_⟩, fun shows => ⟨?_, ?_⟩⟩
  · rw [filter_single_all fuel sl "all" (by decide) (by decide)]
    rfl
  · rw [filter_single_all fuel sl "-all" (by decide) (by decide)]
    rfl
  · rw [setAllShows, List.map_map]
    rfl
  · rw [setAllShows, List.map_map]
    rfl

/-- Counterexample to C2 as stated: the token `"all\n"` is not equal to
    `"all"` or `"-all"`, yet with no Filter or Group registered at all it
    still flips the show's flag — the special case fired for it. -/
theorem all_token_exact_counterexample :
    ShowList.filter 1 slC2 "all\n" = some slC2done ∧
      slC2.filters = [] ∧ "all\n" ≠ "all" ∧ "all\n" ≠ "-all" ∧
      slC2done.shows.map Show.enabled ≠ slC2.shows.map Show.enabled := by
  refine ⟨by decide, rfl, by decide, by decide, by decide⟩

/-- Claim C3, amended (corrected): for every spaceless token *not
    matched by `^-?all$`* (the claim's "not exactly `all` or `-all`" is
    too narrow: `"all\n"`-style tokens also take the special case),
    `filter()` applies the first registered entry whose `match` accepts
    the token — the result is that entry's `run` alone, independent of
    the entries after it — and when no entry matches, the token is
    silently ignored and the state returned unchanged. -/
theorem token_first_match (fuel : Nat) (sl : ShowList) (t : String)
    (hall : reMatch allPseudoPat t = false)
    (hsp : ∀ c ∈ t.data, c ≠ ' ') :
    ((∀ e ∈ sl.filters, FEntry.matchTok e t = false) →
        ShowList.filter (fuel + 1) sl t = some sl) ∧
    (∀ (pre : List FEntry) (e : FEntry) (post : List FEntry),
        sl.filters = pre ++ e :: post →
        (∀ x ∈ pre, FEntry.matchTok x t = false) →
        FEntry.matchTok e t = true →
        ShowList.filter (fuel + 1) sl t =
          runEntryF (fun sl2 s2 => ShowList.filter fuel sl2 s2) sl e (is_enabled_filter t)) := by
  constructor
  · intro hm
    rw [filter_one_token fuel sl t hsp, stepTokenF_no_match _ sl t hall hm]
  · intro pre e post hfl hpre he
    rw [filter_one_token fuel sl t hsp,
      stepTokenF_first_entry _ sl t pre e post hall hfl hpre he]

/-- Witness for C3: the token `"zzz"` matches no registered entry and
    leaves the registry unchanged, raising no error. -/
theorem token_first_match_witness :
    ShowList.filter 1 slC3 "zzz" = some slC3 :=
  (token_first_match 0 slC3 "zzz" (by decide) (by decide)).1 (by decide)

/-- Counterexample to C3 as stated: `"-all\n"` is not exactly `"all"` or
    `"-all"` and no entry is registered, yet the state changes (the show
    is disabled) instead of being left unchanged. -/
theorem token_first_match_counterexample :
    slC3c.filters = [] ∧ "-all\n" ≠ "all" ∧ "-all\n" ≠ "-all" ∧
      ShowList.filter 1 slC3c "-all\n" = some slC3cdone ∧
      slC3cdone.shows.map Show.enabled ≠ slC3c.shows.map Show.enabled := by
  refine ⟨rfl, by decide, by decide, by decide, by decide⟩

/-- Claim C4, amended (corrected): for every Filter whose match key is
    free of regex metacharacters (the key is handed to `re.compile`
    unescaped), `matches(token)` is true exactly for tokens of the form
    `k`, `k` plus a suffix, `-k`, or `-k` plus a suffix. -/
theorem filter_match_literal_key (k token : String)
    (_hk : ∀ c ∈ k.data, isRegexMeta c = false) :
    reMatch (filterPat (lits k)) token = true ↔
      (∃ r, token.data = k.data ++ r) ∨ (∃ r, token.data = '-' :: (k.data ++ r)) :=
  reMatch_filterPat_lits k token

/-- Witness for C4: key `"ff"` against token `"-ffxyz"`. -/
theorem filter_match_literal_key_witness :
    (∀ c ∈ ("ff" : String).data, isRegexMeta c = false) ∧
      (reMatch (filterPat (lits "ff")) "-ffxyz" = true ↔
        (∃ r, ("-ffxyz" : String).data = ("ff" : String).data ++ r) ∨
          (∃ r, ("-ffxyz" : String).data = '-' :: (("ff" : String).data ++ r))) :=
  ⟨by decide, filter_match_literal_key "ff" "-ffxyz" (by decide)⟩

/-- Counterexample to C4 as stated: the key `"a."` compiles to the
    pattern `-?` `a` `.` (`Pat.seq (Pat.lit 'a') Pat.dot` is
    `re.compile("a.")`), which matches the token `"axz"` even though
    `"a."` occurs in it neither at the start nor after a leading `-`. -/
theorem filter_match_literal_key_counterexample :
    reMatch (filterPat (Pat.seq (Pat.lit 'a') Pat.dot)) "axz" = true ∧
      ¬ (∃ r, ("axz" : String).data = ("a." : String).data ++ r) ∧
      ¬ (∃ r, ("axz" : String).data = '-' :: (("a." : String).data ++ r)) := by
  refine ⟨by decide, ?_, ?_⟩
  · rintro ⟨r, h⟩
    injection h with h1 h2
    injection h2 with h3 h4
    exact absurd h3 (by decide)
  · rintro ⟨r, h⟩
    injection h with h1 h2
    exact absurd h1 (by decide)

/-- Claim C5, amended (corrected): when the pooled episode list of the
    enabled shows is duplicate-free (as it is for distinct show
    directories), `random_episodes(count)` — the shuffle being any
    permutation of the pool — returns `min count poolsize` distinct pool
    entries without repeats, the whole pool (as a permutation) when the
    pool is not larger than `count`, and never errors.  Pools that repeat
    an episode path (overlapping show directories) can produce repeats. -/
theorem random_episodes_spec (fs : String → List String)
    (shuffle : List String → List String) (sl : ShowList) (count : Nat)
    (hperm : List.Perm (shuffle (allMatchingEpisodes fs sl)) (allMatchingEpisodes fs sl))
    (hnd : (allMatchingEpisodes fs sl).Nodup) :
    (random_episodes fs shuffle sl count).length =
        min count (allMatchingEpisodes fs sl).length ∧
    (random_episodes fs shuffle sl count).Nodup ∧
    (∀ x ∈ random_episodes fs shuffle sl count, x ∈ allMatchingEpisodes fs sl) ∧
    ((allMatchingEpisodes fs sl).length ≤ count →
      List.Perm (random_episodes fs shuffle sl count) (allMatchingEpisodes fs sl)) := by
  have hlen := hperm.length_eq
  refine ⟨?_, ?_, ?_, ?_⟩
  · rw [random_episodes, List.length_take, hlen]
  · exact ((hperm.nodup_iff).mpr hnd).sublist (List.take_sublist _ _)
  · intro x hx
    exact hperm.mem_iff.mp (List.take_subset _ _ hx)
  · intro hle
    rw [random_episodes, List.take_of_length_le (by rw [hlen]; exact hle)]
    exact hperm

/-- Witness for C5: one enabled show with cached episodes
    `["e1", "e2"]`, identity shuffle, count 1. -/
theorem random_episodes_spec_witness :
    (random_episodes (fun _ => []) id slC5w 1).length =
        min 1 (allMatchingEpisodes (fun _ => []) slC5w).length ∧
      (random_episodes (fun _ => []) id slC5w 1).Nodup ∧
      (∀ x ∈ random_episodes (fun _ => []) id slC5w 1,
        x ∈ allMatchingEpisodes (fun _ => []) slC5w) ∧
      ((allMatchingEpisodes (fun _ => []) slC5w).length ≤ 1 →
        List.Perm (random_episodes (fun _ => []) id slC5w 1)
          (allMatchingEpisodes (fun _ => []) slC5w)) :=
  random_episodes_spec (fun _ => []) id slC5w 1 (List.Perm.refl _) (by decide)

/-- Counterexample to C5 as stated: two enabled shows caching the same
    episode path `"e"` give the pool `["e", "e"]`; the identity shuffle
    is a permutation of it, yet the returned two entries repeat. -/
theorem random_episodes_counterexample :
    List.Perm (id (allMatchingEpisodes (fun _ => []) slC5c))
        (allMatchingEpisodes (fun _ => []) slC5c) ∧
      2 ≤ (allMatchingEpisodes (fun _ => []) slC5c).length ∧
      random_episodes (fun _ => []) id slC5c 2 = ["e", "e"] ∧
      ¬ (random_episodes (fun _ => []) id slC5c 2).Nodup := by
  refine ⟨List.Perm.refl _, by decide, by decide, by decide⟩

/-- Claim C6 (confirmed): `playlist_contents` emits `#EXTM3U` plus a
    newline, then one `#EXTINFO:0,<basename>` line and one path line per
    episode in order, entries joined by single newlines with no trailing
    separator: it equals the spec's renderer on every input, and the two
    concrete examples hold byte for byte. -/
theorem playlist_contents_format :
    playlist_contents ["/a/b/ep1.avi"] = "#EXTM3U\n#EXTINFO:0,ep1.avi\n/a/b/ep1.avi" ∧
      playlist_contents [] = "#EXTM3U\n" ∧
      ∀ episodes : List String, playlist_contents episodes = m3uSpecFormat episodes := by
  refine ⟨by decide, by decide, ?_⟩
  intro es
  rw [playlist_contents, m3uSpecFormat, pyJoin_entries]

/-- Claim C7, amended (corrected): for newline-free paths the scanner's
    file-name test accepts exactly the paths ending in one of the six
    extension tokens, whatever character precedes the token; a file node
    is kept exactly when that test accepts its full path.  (For paths
    containing a newline CPython regex semantics deviate from a pure
    suffix test: `$` also accepts one final newline and `.*` cannot
    cross a newline.) -/
theorem scanner_suffix_semantics (path : String) (h : ∀ c ∈ path.data, c ≠ '\n') :
    (extMatch path = true ↔ ∃ t ∈ extTokens, ∃ pre, path.data = pre ++ t.data) ∧
    (∀ dir name : String,
      episodes_for_path dir [FSNode.file name] =
        if extMatch (dir ++ "/" ++ name) then [dir ++ "/" ++ name] else []) := by
  constructor
  · rw [show extMatch path = mtch extPat path.data (fun _ => true) from rfl, extMatch_chars]
    constructor
    · rintro ⟨pre, t, ht, rest, hl, hpre, hrest⟩
      rcases hrest with rfl | rfl
      · exact ⟨t, ht, pre, by simpa using hl⟩
      · exfalso
        apply h '\n' _ rfl
        rw [hl]
        simp
    · rintro ⟨t, ht, pre, hl⟩
      refine ⟨pre, t, ht, [], by simpa using hl, ?_, Or.inl rfl⟩
      intro c hc
      exact h c (by rw [hl]; exact List.mem_append_left _ hc)
  · intro dir name
    by_cases hm : extMatch (dir ++ "/" ++ name) <;> simp [episodes_for_path, hm]

/-- Witness for C7: the newline-free path `"x/clip.mp4"`. -/
theorem scanner_suffix_semantics_witness :
    (extMatch "x/clip.mp4" = true ↔
        ∃ t ∈ extTokens, ∃ pre, ("x/clip.mp4" : String).data = pre ++ t.data) ∧
      (∀ dir name : String,
        episodes_for_path dir [FSNode.file name] =
          if extMatch (dir ++ "/" ++ name) then [dir ++ "/" ++ name] else []) :=
  scanner_suffix_semantics "x/clip.mp4" (by decide)

/-- Counterexample to C7 as stated: `"d/a.mp4\n"` ends in none of the
    six tokens yet the scanner includes it, while `"d/a\nb.mp4"` ends in
    `mp4` yet is rejected. -/
theorem scanner_suffix_counterexample :
    extMatch "d/a.mp4\n" = true ∧
      ¬ (∃ t ∈ extTokens, ∃ pre, ("d/a.mp4\n" : String).data = pre ++ t.data) ∧
      episodes_for_path "d" [FSNode.file "a.mp4\n"] = ["d/a.mp4\n"] ∧
      extMatch "d/a\nb.mp4" = false ∧
      (∃ pre, ("d/a\nb.mp4" : String).data = pre ++ ("mp4" : String).data) := by
  have e3 : episodes_for_path "d" [FSNode.file "a.mp4\n"] = ["d/a.mp4\n"] := by
    simp [episodes_for_path]
    decide
  refine ⟨by decide, ?_, e3, by decide, ⟨("d/a\nb." : String).data, by decide⟩⟩
  rintro ⟨t, ht, pre, hp⟩
  have hb : endsWithL t.data ("d/a.mp4\n" : String).data = true :=
    (endsWithL_iff _ _).mpr ⟨pre, hp⟩
  simp only [extTokens, List.mem_cons, List.not_mem_nil, or_false] at ht
  rcases ht with rfl | rfl | rfl | rfl | rfl | rfl <;> exact absurd hb (by decide)

/-- Claim C8, amended (corrected): the empty token is assigned *disable*
    polarity — `is_enabled_filter("")` hits the `IndexError` handler and
    returns `False` — while every nonempty token is enable exactly when
    its first character is not `-`. -/
theorem empty_token_polarity :
    is_enabled_filter "" = false ∧
      ∀ (c : Char) (cs : List Char), is_enabled_filter (String.mk (c :: cs)) = (c != '-') :=
  ⟨rfl, fun _ _ => rfl⟩

/-- Counterexample to C8 as stated: the empty token's polarity is not
    "enable". -/
theorem empty_token_polarity_counterexample : ¬ (is_enabled_filter "" = true) := by
  decide

/-- Claim C9, amended (corrected): if the show's cache is already
    populated or the scan of its path is nonempty, then after one
    `episodes()` call no later call invokes the scanner and the call's
    result is repeated unchanged.  (An *empty* scan result is not
    retained by the truthiness test `if not self.eplist`, so every call
    rescans; the returned value is still stable for a static
    filesystem.) -/
theorem episodes_cache (fs : String → List String) (s : Show)
    (h : fs s.path ≠ [] ∨ s.eplist ≠ []) :
    Show.scanCount ((Show.episodesCall fs s).2) = 0 ∧
      Show.episodesCall fs ((Show.episodesCall fs s).2) = Show.episodesCall fs s := by
  by_cases he : s.eplist = []
  · have hf : fs s.path ≠ [] := by
      rcases h with h | h
      · exact h
      · exact absurd he h
    simp [Show.episodesCall, Show.scanCount, he, hf]
  · simp [Show.episodesCall, Show.scanCount, he]

/-- Witness for C9: a scanner returning `["e"]` on a fresh show. -/
theorem episodes_cache_witness :
    Show.scanCount ((Show.episodesCall (fun _ => ["e"]) ⟨"n", "p/n", [], false⟩).2) = 0 ∧
      Show.episodesCall (fun _ => ["e"])
          ((Show.episodesCall (fun _ => ["e"]) ⟨"n", "p/n", [], false⟩).2) =
        Show.episodesCall (fun _ => ["e"]) ⟨"n", "p/n", [], false⟩ :=
  episodes_cache (fun _ => ["e"]) ⟨"n", "p/n", [], false⟩ (Or.inl (by decide))

/-- Counterexample to C9 as stated: when the scan of the show's path is
    empty, the state after the first `episodes()` call still triggers a
    scan on the next call (`scanCount = 1`, not `0`): the result was not
    cached for the remainder of the process. -/
theorem episodes_cache_counterexample :
    Show.scanCount ((Show.episodesCall (fun _ => []) ⟨"n", "p/n", [], false⟩).2) = 1 ∧
      Show.scanCount ((Show.episodesCall (fun _ => ["e"]) ⟨"n", "p/n", [], false⟩).2) = 0 :=
  ⟨rfl, rfl⟩

/-- Claim C10 (confirmed): whenever `filter()` returns (at any recursion
    depth, so in particular through recursive Group expansion), the
    Filter/Group list is unchanged and every show keeps its name, path
    and cached episode list — only enabled flags can differ. -/
theorem filter_frame_effect (fuel : Nat) (sl : ShowList) (s : String) (sl' : ShowList)
    (h : ShowList.filter fuel sl s = some sl') :
    sl'.filters = sl.filters ∧
      sl'.shows.map Show.name = sl.shows.map Show.name ∧
      sl'.shows.map Show.path = sl.shows.map Show.path ∧
      sl'.shows.map Show.eplist = sl.shows.map Show.eplist := by
  obtain ⟨hf, hm⟩ := filter_frame fuel sl s sl' h
  have h1 := congrArg (List.map Prod.fst) hm
  have h2 := congrArg (List.map (fun x : String × String × List String => x.2.1)) hm
  have h3 := congrArg (List.map (fun x : String × String × List String => x.2.2)) hm
  rw [List.map_map, List.map_map] at h1 h2 h3
  exact ⟨hf, h1, h2, h3⟩

/-- Witness for C10: the registry `slC10`, whose Group rewrites the
    show's flag through recursion, keeps everything but the flag. -/
theorem filter_frame_effect_witness :
    slC10done.filters = slC10.filters ∧
      slC10done.shows.map Show.name = slC10.shows.map Show.name ∧
      slC10done.shows.map Show.path = slC10.shows.map Show.path ∧
      slC10done.shows.map Show.eplist = slC10.shows.map Show.eplist :=
  filter_frame_effect 2 slC10 "g" slC10done (by decide)

end Playlist
